import Mathlib

/-!
Verification of the straight-ray travel-time sampling core (`src/sampling.py`)
of the feasible-io/simulations repository.

The three functions `SampleAlongLine`, `IsInMapRegion` and
`CalculateTimeOfFlight` are embedded shallowly over `ℝ`:

* numpy float arrays of rank 1 and length `D` become functions `Fin D → ℝ`;
* the speed field (a `D`-dimensional numpy array) becomes a `SpeedMap`
  carrying its shape and a total data function on integer index vectors
  (meaningful on in-range indices, which is all any theorem reads);
* numpy's `round` (round half to even) is `npRound`;
* numpy basic indexing semantics are kept: an integer index `i` into an axis
  of size `s` is accepted iff `-s ≤ i < s`, and a negative accepted index
  reads position `i + s` (wrap-around);
* a Python exception becomes `Except.error`: `assert` failures,
  `ValueError` from `np.concatenate` on an empty list, and `IndexError`
  from an out-of-range lookup;
* an IEEE non-finite float value (NaN or ±Inf) cannot be a real number, so
  quantities that can become non-finite are carried as `Option ℝ` with
  `none` standing for "not a finite real":  the mean of an empty slice is
  NaN, a division by a zero sample is non-finite, and any sum with a
  non-finite term is non-finite.  A whole array whose entries are poisoned
  by a NaN direction is likewise `Option`-wrapped (`none` = NaN-filled).

The embedding targets `D ≥ 1` (the data model of the code is a rank-2 or
rank-3 field); rank-0 numpy corner cases are outside the data model.
In-place numpy mutation is made observable by returning the final state of
the mutated argument: `SampleAlongLine` divides its `direction` argument in
place by its norm, so its output `LineOut` records `dirAfter`, the content
of the caller's `direction` array when the call ends.
-/

noncomputable section

open scoped Classical

/-- Python exceptions that the sampling core can actually raise:
`assert` failure in `CalculateTimeOfFlight`, `ValueError` from
`np.concatenate([])` in `SampleAlongLine`, and `IndexError` from an
out-of-range speed-field lookup. -/
inductive SamplingError where
  | assertionError
  | valueError
  | indexError
  deriving DecidableEq

/-- Embedding of `np.round` on a scalar: round half to even (IEEE
"banker's rounding"), which is what numpy documents and implements.
Mathlib's `round` rounds halves up, so ties are handled separately. -/
def npRound (x : ℝ) : ℤ :=
  if x - ⌊x⌋ = 1/2 then (if 2 ∣ ⌊x⌋ then ⌊x⌋ else ⌊x⌋ + 1) else round x

/-- Embedding of `np.linalg.norm` on a rank-1 array: the Euclidean norm. -/
def euclidNorm {D : ℕ} (v : Fin D → ℝ) : ℝ :=
  Real.sqrt (∑ i, v i ^ 2)

/-- Euclidean distance between two coordinates, used to state spacing
properties of sampled points. -/
def euclidDist {D : ℕ} (p q : Fin D → ℝ) : ℝ :=
  euclidNorm (fun i => p i - q i)

/-- Embedding of the `speed_map` argument: a `D`-dimensional numpy array of
floats.  `data` is total on integer index vectors; lookups only ever read it
at wrapped in-range indices. -/
structure SpeedMap (D : ℕ) where
  shape : Fin D → ℕ
  data : (Fin D → ℤ) → ℝ

/-- An integer index vector numpy accepts for basic indexing: on every axis
`i`, `-(shape i) ≤ v i < shape i`.  Anything else raises `IndexError`. -/
def validIndex {D : ℕ} (m : SpeedMap D) (v : Fin D → ℤ) : Prop :=
  ∀ i, -(m.shape i : ℤ) ≤ v i ∧ v i < (m.shape i : ℤ)

/-- Numpy resolution of an accepted index vector: a negative index on an
axis of size `s` reads position `index + s` (wrap-around). -/
def wrapIndex {D : ℕ} (m : SpeedMap D) (v : Fin D → ℤ) : Fin D → ℤ :=
  fun i => if v i < 0 then v i + (m.shape i : ℤ) else v i

/-- Embedding of one element access `speed_map[i0, ..., i_{D-1}]` with numpy
basic-indexing semantics; `none` is `IndexError`. -/
def SpeedMap.lookup {D : ℕ} (m : SpeedMap D) (v : Fin D → ℤ) : Option ℝ :=
  if validIndex m v then some (m.data (wrapIndex m v)) else none

/-- Embedding of the fancy-indexing read `speed_map[*samples]`: one lookup
per sample column, in order; any out-of-range column raises `IndexError`
(`none`). -/
def lookupAll {D : ℕ} (m : SpeedMap D) : List (Fin D → ℤ) → Option (List ℝ)
  | [] => some []
  | v :: rest =>
      match m.lookup v, lookupAll m rest with
      | some s, some ss => some (s :: ss)
      | _, _ => none

/-- Embedding of `np.linspace(a, b, k)`: `k` evenly spaced values from `a`
to `b` inclusive; `k = 0` gives the empty array and `k = 1` gives `[a]`. -/
def linspace (a b : ℝ) (k : ℕ) : List ℝ :=
  if k = 0 then []
  else if k = 1 then [a]
  else (List.range k).map (fun (i : ℕ) => a + (i : ℝ) * ((b - a) / ((k : ℝ) - 1)))

/-- Embedding of `( steps[1:] - steps[:-1] ).mean()`: the mean of the
consecutive differences.  The mean of an empty slice is NaN in numpy, hence
`none` here. -/
def meanDiff (xs : List ℝ) : Option ℝ :=
  let ds := (xs.tail.zip xs).map (fun p => p.1 - p.2)
  if ds.length = 0 then none else some (ds.sum / (ds.length : ℝ))

/-- Embedding of `np.array([ dx / sp for sp in speeds ]).sum()`: the sum of
`dx / sp` over all sampled speeds — one term per sample.  The sum of an
empty array is `0.0`.  A non-finite `dx` (NaN) or a zero sample (division
by zero) makes the corresponding term, hence the sum, non-finite (`none`). -/
def sumDt (dx : Option ℝ) : List ℝ → Option ℝ
  | [] => some 0
  | sp :: rest =>
      Option.bind dx (fun d =>
        Option.bind (sumDt dx rest) (fun acc =>
          if sp = 0 then none else some (d / sp + acc)))

/-- The `distance` local of `CalculateTimeOfFlight`:
`np.linalg.norm(point_query - point_origin)`. -/
def tofDistance {D : ℕ} (q o : Fin D → ℝ) : ℝ :=
  euclidDist q o

/-- The discretization count of `CalculateTimeOfFlight`:
`np.round(distance * steps_per_pixel).astype(int)`, the third argument of
its `np.linspace` call. -/
def tofK {D : ℕ} (q o : Fin D → ℝ) (spp : ℕ) : ℕ :=
  (npRound (tofDistance q o * (spp : ℝ))).toNat

/-- The `steps` local of `CalculateTimeOfFlight`:
`np.linspace(0., distance, k)`. -/
def tofSteps {D : ℕ} (q o : Fin D → ℝ) (spp : ℕ) : List ℝ :=
  linspace 0 (tofDistance q o) (tofK q o spp)

/-- The rounded integer sample coordinates of `CalculateTimeOfFlight`: the
columns of `np.round(steps * direction + origin).astype(int)`, where
`direction = (point_query - point_origin) / distance`. -/
def tofIndices {D : ℕ} (q o : Fin D → ℝ) (spp : ℕ) : List (Fin D → ℤ) :=
  (tofSteps q o spp).map (fun t => fun i =>
    npRound (o i + t * ((q i - o i) / tofDistance q o)))

/-- Embedding of `CalculateTimeOfFlight(point_query, point_origin,
speed_map, steps_per_pixel)` from `src/sampling.py` (the source default for
`steps_per_pixel` is `8`; here it is always passed explicitly).  The
source's opening `assert` compares the two point sizes with the array rank;
the typed embedding fixes all three to `D`, so the assertion cannot fire.
The result pairs the total time (`none` = IEEE non-finite) with the list of
sampled speeds. -/
def CalculateTimeOfFlight {D : ℕ} (q o : Fin D → ℝ) (m : SpeedMap D)
    (spp : ℕ) : Except SamplingError (Option ℝ × List ℝ) :=
  match lookupAll m (tofIndices q o spp) with
  | none => Except.error SamplingError.indexError
  | some speeds => Except.ok (sumDt (meanDiff (tofSteps q o spp)) speeds, speeds)

/-- Output of `SampleAlongLine`: `result` is the returned array — a list of
sampled coordinates, `Option`-wrapped because a zero direction fills it
with NaN — or the exception the call raised; `dirAfter` is the content of
the caller's `direction` array when the call ends (the function divides it
in place by its norm), with `none` again standing for NaN components. -/
structure LineOut (D : ℕ) where
  result : Except SamplingError (Option (List (Fin D → ℝ)))
  dirAfter : Option (Fin D → ℝ)

/-- One element `origin + n*step_size*direction` of the list comprehension
in `SampleAlongLine` (with `direction` already normalized to `u`). -/
def linePoint {D : ℕ} (o u : Fin D → ℝ) (s : ℝ) (n : ℕ) : Fin D → ℝ :=
  fun i => o i + (n : ℝ) * s * u i

/-- Embedding of `SampleAlongLine(origin, direction, step_size, num_steps)`
from `src/sampling.py`.  The source first executes
`direction /= np.linalg.norm(direction)` — an in-place division, recorded
in `dirAfter`; a zero norm makes every component NaN (numpy warns but does
not raise).  It then builds `origin + n*step_size*direction` for
`n = 0 … num_steps-1` and concatenates them columnwise;
`np.concatenate` on the empty list (`num_steps = 0`) raises `ValueError`. -/
def SampleAlongLine {D : ℕ} (origin direction : Fin D → ℝ) (step_size : ℝ)
    (num_steps : ℕ) : LineOut D :=
  let nrm := euclidNorm direction
  let dirAfter : Option (Fin D → ℝ) :=
    if nrm = 0 then none else some (fun i => direction i / nrm)
  if num_steps = 0 then
    { result := Except.error SamplingError.valueError, dirAfter := dirAfter }
  else
    match dirAfter with
    | none => { result := Except.ok none, dirAfter := none }
    | some u =>
        { result := Except.ok (some ((List.range num_steps).map
            (fun n => linePoint origin u step_size n))),
          dirAfter := some u }

/-- Embedding of `IsInMapRegion(point, map_lims)` from `src/sampling.py`:
`all([ pt >= ml[0] and pt <= ml[1] for pt, ml in zip(point, map_lims) ])`.
Each map limit is a `[min, max]` pair.  Python's `zip` silently truncates
to the shorter of the two sequences. -/
def IsInMapRegion (point : List ℝ) (map_lims : List (ℝ × ℝ)) : Bool :=
  ((point.zip map_lims).map
    (fun pm => decide (pm.2.1 ≤ pm.1 ∧ pm.1 ≤ pm.2.2))).all id

/-- A 2D speed field of shape 5×5 with constant speed 2, used as a concrete
instance. -/
def constMap2 : SpeedMap 2 :=
  { shape := ![5, 5], data := fun _ => 2 }

theorem euclidNorm_nonneg {D : ℕ} (v : Fin D → ℝ) : 0 ≤ euclidNorm v :=
  Real.sqrt_nonneg _

theorem euclidNorm_eq_zero_iff {D : ℕ} (v : Fin D → ℝ) :
    euclidNorm v = 0 ↔ v = 0 := by
  unfold euclidNorm
  rw [Real.sqrt_eq_zero (Finset.sum_nonneg (fun i _ => sq_nonneg (v i)))]
  constructor
  · intro h
    funext i
    have hz := (Finset.sum_eq_zero_iff_of_nonneg
      (fun i _ => sq_nonneg (v i))).mp h i (Finset.mem_univ i)
    exact (pow_eq_zero_iff (by norm_num)).mp hz
  · intro h
    subst h
    simp

theorem euclidNorm_smul_abs {D : ℕ} (c : ℝ) (v : Fin D → ℝ) :
    euclidNorm (fun i => c * v i) = |c| * euclidNorm v := by
  unfold euclidNorm
  have h : ∑ i, (c * v i) ^ 2 = c ^ 2 * ∑ i, v i ^ 2 := by
    rw [Finset.mul_sum]
    exact Finset.sum_congr rfl (fun i _ => by ring)
  rw [h, Real.sqrt_mul (sq_nonneg c), Real.sqrt_sq_eq_abs]

theorem euclidNorm_normalize {D : ℕ} (v : Fin D → ℝ) (h : euclidNorm v ≠ 0) :
    euclidNorm (fun i => v i / euclidNorm v) = 1 := by
  have hrw : (fun i => v i / euclidNorm v) = fun i => (euclidNorm v)⁻¹ * v i := by
    funext i
    rw [div_eq_inv_mul]
  rw [hrw, euclidNorm_smul_abs, abs_inv, abs_of_nonneg (euclidNorm_nonneg v)]
  exact inv_mul_cancel₀ h

theorem linePoint_dist {D : ℕ} (o u : Fin D → ℝ) (s : ℝ) (n : ℕ) :
    euclidDist (linePoint o u s (n+1)) (linePoint o u s n) = |s| * euclidNorm u := by
  rw [euclidDist]
  have h : (fun i => linePoint o u s (n+1) i - linePoint o u s n i)
      = fun i => s * u i := by
    funext i
    simp only [linePoint]
    push_cast
    ring
  rw [h, euclidNorm_smul_abs]

theorem euclidNorm_three_four : euclidNorm (![(3:ℝ), 4]) = 5 := by
  rw [euclidNorm]
  rw [show (∑ i, (![(3:ℝ), 4]) i ^ 2) = 25 by rw [Fin.sum_univ_two]; norm_num]
  rw [show (25:ℝ) = 5 ^ 2 by norm_num]
  exact Real.sqrt_sq (by norm_num)

/-- Claim C1: for a query equal to the origin (distance zero),
`CalculateTimeOfFlight` returns `total_time = 0` and an empty sampled-speed
sequence — no exception and no NaN.  Indeed `k = round(0) = 0`, the offset
sweep is empty, the fancy-indexing read of zero samples yields an empty
speed array, and the sum of the empty `dt` array is exactly `0.0`; the NaN
`dx` (mean of an empty slice) is never consumed. -/
theorem tof_zero_distance_returns_zero {D : ℕ} (hD : 0 < D)
    (m : SpeedMap D) (p : Fin D → ℝ) (spp : ℕ) :
    CalculateTimeOfFlight p p m spp = Except.ok (some 0, []) := by
  have hdist : tofDistance p p = 0 := by
    simp [tofDistance, euclidDist, euclidNorm]
  have hk : tofK p p spp = 0 := by
    simp [tofK, hdist, npRound]
  have hsteps : tofSteps p p spp = [] := by
    simp [tofSteps, hk, linspace]
  have hidx : tofIndices p p spp = [] := by
    simp [tofIndices, hsteps]
  simp [CalculateTimeOfFlight, hidx, lookupAll, hsteps, meanDiff, sumDt]

/-- Witness for C1 at a concrete input: the 5×5 constant field, the point
`(2, 3)` and the default resolution `steps_per_pixel = 8`. -/
theorem tof_zero_distance_returns_zero_witness :
    0 < 2 ∧
      CalculateTimeOfFlight ![(2:ℝ), 3] ![(2:ℝ), 3] constMap2 8 =
        Except.ok (some 0, []) :=
  ⟨by norm_num,
   tof_zero_distance_returns_zero (by norm_num) constMap2 ![(2:ℝ), 3] 8⟩

/-- Claim C3, counterexample to the claim as stated: for `num_steps = 0`
(a non-negative step count, with a non-zero direction and a positive step
size) `SampleAlongLine` does not return a sequence of exactly 0 points —
the columnwise `np.concatenate` over the empty list of points raises
`ValueError`. -/
theorem sample_zero_steps_cex :
    (SampleAlongLine ![(0:ℝ), 0] ![(1:ℝ), 0] 1 0).result
      = Except.error SamplingError.valueError := by
  simp [SampleAlongLine]

/-- Claim C3 as amended: for a non-zero direction `d`, a positive step size
`s` and a step count `k ≥ 1`, `SampleAlongLine` returns exactly `k` points,
the `n`-th being `o + n*s*unit(d)` (so the first equals `o` and the points
are collinear), with consecutive points exactly `s` apart in Euclidean
distance.  For `k = 0` the call instead raises `ValueError`. -/
theorem sample_along_line_spec {D : ℕ} (o d : Fin D → ℝ) (s : ℝ) (k : ℕ)
    (hd : d ≠ 0) (hs : 0 < s) (hk : 1 ≤ k) :
    ∃ pts : List (Fin D → ℝ),
      (SampleAlongLine o d s k).result = Except.ok (some pts) ∧
      pts.length = k ∧
      (∀ n, n < k → pts.get? n =
        some (fun i => o i + (n : ℝ) * s * (d i / euclidNorm d))) ∧
      (∀ n a b, pts.get? n = some a → pts.get? (n+1) = some b →
        euclidDist b a = s) := by
  have hnrm : euclidNorm d ≠ 0 := fun h => hd ((euclidNorm_eq_zero_iff d).mp h)
  have hk0 : k ≠ 0 := by omega
  refine ⟨(List.range k).map
    (fun n => linePoint o (fun i => d i / euclidNorm d) s n), ?_, ?_, ?_, ?_⟩
  · simp [SampleAlongLine, hnrm, hk0]
  · rw [List.length_map, List.length_range]
  · intro n hn
    rw [List.get?_map, List.get?_range hn]
    rfl
  · intro n a b ha hb
    have hn1 : n + 1 < k := by
      by_contra hcon
      have hnone : (List.range k).get? (n + 1) = none := by
        rw [List.get?_eq_none]
        simpa using Nat.le_of_not_lt hcon
      rw [List.get?_map, hnone] at hb
      exact Option.noConfusion hb
    have hn : n < k := by omega
    rw [List.get?_map, List.get?_range hn] at ha
    rw [List.get?_map, List.get?_range hn1] at hb
    simp only [Option.map_some'] at ha hb
    have ha' := Option.some.inj ha
    have hb' := Option.some.inj hb
    subst ha'
    subst hb'
    rw [linePoint_dist, euclidNorm_normalize d hnrm, abs_of_pos hs, mul_one]

/-- Witness for the amended C3 at origin `(0,0)`, direction `(3,4)`, step
size `2` and three steps. -/
theorem sample_along_line_spec_witness :
    (![(3:ℝ), 4]) ≠ 0 ∧ (0:ℝ) < 2 ∧ 1 ≤ 3 ∧
      ∃ pts : List (Fin 2 → ℝ),
        (SampleAlongLine ![(0:ℝ), 0] ![(3:ℝ), 4] 2 3).result
          = Except.ok (some pts) ∧
        pts.length = 3 ∧
        (∀ n, n < 3 → pts.get? n =
          some (fun i => (![(0:ℝ), 0]) i
            + (n : ℝ) * 2 * ((![(3:ℝ), 4]) i / euclidNorm ![(3:ℝ), 4]))) ∧
        (∀ n a b, pts.get? n = some a → pts.get? (n+1) = some b →
          euclidDist b a = 2) := by
  have hd : (![(3:ℝ), 4]) ≠ 0 := by
    intro h
    have h0 := congrFun h 0
    norm_num at h0
  exact ⟨hd, by norm_num, by norm_num,
    sample_along_line_spec ![(0:ℝ), 0] ![(3:ℝ), 4] 2 3 hd (by norm_num)
      (by norm_num)⟩

/-- Claim C4, counterexample to the claim as stated: a zero-magnitude
direction does not make `SampleAlongLine` fail — no exception of any kind
is raised (numpy only emits a runtime warning).  The call returns normally;
the division `0/0` during normalization fills the direction, and hence
every returned point, with NaN (`Except.ok none` in this embedding). -/
theorem sample_zero_direction_cex :
    (SampleAlongLine ![(0:ℝ), 0] ![(0:ℝ), 0] 1 2).result = Except.ok none := by
  have h : euclidNorm (![(0:ℝ), 0]) = 0 := by
    rw [euclidNorm]
    rw [show (∑ i, (![(0:ℝ), 0]) i ^ 2) = 0 by rw [Fin.sum_univ_two]; norm_num]
    exact Real.sqrt_zero
  simp [SampleAlongLine, h]

/-- Claim C4 as amended: for a direction of zero magnitude (and a positive
number of steps, so that the columnwise concatenation succeeds),
`SampleAlongLine` raises nothing: it returns normally, the division by zero
during normalization having silently turned the direction — and therefore
every returned sample — into NaN. -/
theorem sample_zero_direction_nan {D : ℕ} (hD : 0 < D) (o d : Fin D → ℝ)
    (s : ℝ) (k : ℕ) (hd : euclidNorm d = 0) (hk : k ≠ 0) :
    (SampleAlongLine o d s k).result = Except.ok none ∧
      (SampleAlongLine o d s k).dirAfter = none := by
  constructor <;> simp [SampleAlongLine, hd, hk]

/-- Witness for the amended C4 at direction `(0,0)` with two steps. -/
theorem sample_zero_direction_nan_witness :
    0 < 2 ∧ euclidNorm (![(0:ℝ), 0]) = 0 ∧ 2 ≠ 0 ∧
      ((SampleAlongLine ![(1:ℝ), 1] ![(0:ℝ), 0] 1 2).result = Except.ok none ∧
        (SampleAlongLine ![(1:ℝ), 1] ![(0:ℝ), 0] 1 2).dirAfter = none) := by
  have h : euclidNorm (![(0:ℝ), 0]) = 0 := by
    rw [euclidNorm]
    rw [show (∑ i, (![(0:ℝ), 0]) i ^ 2) = 0 by rw [Fin.sum_univ_two]; norm_num]
    exact Real.sqrt_zero
  exact ⟨by norm_num, h, by norm_num,
    sample_zero_direction_nan (by norm_num) ![(1:ℝ), 1] ![(0:ℝ), 0] 1 2 h
      (by norm_num)⟩

/-- Claim C7, counterexample to the claim as stated: `SampleAlongLine` is
not free of side effects — the in-place division `direction /= norm`
mutates the caller's direction array.  After calling with direction
`(3, 4)`, the argument no longer holds `(3, 4)` (it holds `(3/5, 4/5)`). -/
theorem sample_mutates_direction_cex :
    (SampleAlongLine ![(0:ℝ), 0] ![(3:ℝ), 4] 1 1).dirAfter
      ≠ some ![(3:ℝ), 4] := by
  intro hcontra
  rw [show (SampleAlongLine ![(0:ℝ), 0] ![(3:ℝ), 4] 1 1).dirAfter
      = some (fun i => (![(3:ℝ), 4]) i / 5) by
    simp [SampleAlongLine, euclidNorm_three_four]] at hcontra
  have h5 := congrFun (Option.some.inj hcontra) 0
  norm_num at h5

/-- Claim C7 as amended: `SampleAlongLine` normalizes its `direction`
argument in place: when the call ends, the caller's array holds
`direction / ‖direction‖` — which differs from the original whenever the
original's norm is neither 0 nor 1. -/
theorem sample_direction_after {D : ℕ} (o d : Fin D → ℝ) (s : ℝ) (k : ℕ)
    (h0 : euclidNorm d ≠ 0) (h1 : euclidNorm d ≠ 1) :
    (SampleAlongLine o d s k).dirAfter = some (fun i => d i / euclidNorm d) ∧
      (SampleAlongLine o d s k).dirAfter ≠ some d := by
  have hafter : (SampleAlongLine o d s k).dirAfter
      = some (fun i => d i / euclidNorm d) := by
    unfold SampleAlongLine
    by_cases hk : k = 0 <;> simp [hk, h0]
  refine ⟨hafter, ?_⟩
  rw [hafter]
  intro hcontra
  have heq : (fun i => d i / euclidNorm d) = d := Option.some.inj hcontra
  have hone : euclidNorm (fun i => d i / euclidNorm d) = 1 :=
    euclidNorm_normalize d h0
  rw [heq] at hone
  exact h1 hone

/-- Witness for the amended C7 at direction `(3, 4)` (norm 5). -/
theorem sample_direction_after_witness :
    euclidNorm (![(3:ℝ), 4]) ≠ 0 ∧ euclidNorm (![(3:ℝ), 4]) ≠ 1 ∧
      ((SampleAlongLine ![(0:ℝ), 0] ![(3:ℝ), 4] 2 3).dirAfter
          = some (fun i => (![(3:ℝ), 4]) i / euclidNorm ![(3:ℝ), 4]) ∧
        (SampleAlongLine ![(0:ℝ), 0] ![(3:ℝ), 4] 2 3).dirAfter
          ≠ some ![(3:ℝ), 4]) := by
  refine ⟨by rw [euclidNorm_three_four]; norm_num,
    by rw [euclidNorm_three_four]; norm_num,
    sample_direction_after ![(0:ℝ), 0] ![(3:ℝ), 4] 2 3
      (by rw [euclidNorm_three_four]; norm_num)
      (by rw [euclidNorm_three_four]; norm_num)⟩

theorem isInMapRegion_cons (p : ℝ) (pt : List ℝ) (ml : ℝ × ℝ)
    (mls : List (ℝ × ℝ)) :
    IsInMapRegion (p :: pt) (ml :: mls)
      = (decide (ml.1 ≤ p ∧ p ≤ ml.2) && IsInMapRegion pt mls) := by
  simp [IsInMapRegion]

/-- Claim C8, counterexample to the claim as stated: a dimensionality
mismatch between `point` (one axis) and `map_lims` (two intervals) does not
make `IsInMapRegion` fail — Python's `zip` silently drops the unmatched
interval `(99, 100)` and the call returns the boolean `true`. -/
theorem region_mismatch_no_error_cex :
    ([(5:ℝ)] : List ℝ).length ≠ ([((0:ℝ), (10:ℝ)), (99, 100)]).length ∧
      IsInMapRegion [(5:ℝ)] [((0:ℝ), (10:ℝ)), (99, 100)] = true := by
  constructor
  · simp
  · rw [show ([((0:ℝ), (10:ℝ)), (99, 100)]) = ((0:ℝ), (10:ℝ)) :: [(99, 100)]
      from rfl, isInMapRegion_cons]
    norm_num [IsInMapRegion]

/-- Claim C8 as amended: `IsInMapRegion` has no failure mode at all.  When
the dimensionalities of `point` and `map_lims` disagree it still returns a
boolean: the axes beyond the shorter sequence are silently ignored (`zip`
truncation), so the answer equals the one for the two sequences cut down to
their common length. -/
theorem region_truncates (point : List ℝ) (lims : List (ℝ × ℝ)) :
    IsInMapRegion point lims
      = IsInMapRegion (point.take lims.length) (lims.take point.length) := by
  induction point generalizing lims with
  | nil => simp [IsInMapRegion]
  | cons p pt ih =>
      cases lims with
      | nil => simp [IsInMapRegion]
      | cons ml mls =>
          simp only [List.length_cons, List.take_succ_cons]
          rw [isInMapRegion_cons, isInMapRegion_cons, ih]

/-- Claim C9: for `point` and `map_lims` of equal dimensionality,
`IsInMapRegion` returns `true` iff on every axis the point's coordinate
lies in the closed interval `[min, max]` of that axis — so boundary points
are inside and points beyond any bound are outside. -/
theorem region_iff_bounds (point : List ℝ) (lims : List (ℝ × ℝ))
    (h : point.length = lims.length) :
    IsInMapRegion point lims = true ↔
      ∀ (i : ℕ) (p : ℝ) (ml : ℝ × ℝ), point.get? i = some p →
        lims.get? i = some ml → ml.1 ≤ p ∧ p ≤ ml.2 := by
  induction point generalizing lims with
  | nil =>
      cases lims with
      | nil =>
          simp only [IsInMapRegion, List.zip_nil_left, List.map_nil,
            List.all_nil, true_iff]
          intro i p ml hp
          simp at hp
      | cons ml mls => simp at h
  | cons p pt ih =>
      cases lims with
      | nil => simp at h
      | cons ml mls =>
          rw [isInMapRegion_cons]
          simp only [Bool.and_eq_true, decide_eq_true_eq]
          have hlen : pt.length = mls.length := by simpa using h
          rw [ih mls hlen]
          constructor
          · rintro ⟨hb, hrest⟩ i pp mm hp hm
            cases i with
            | zero =>
                simp only [List.get?_cons_zero, Option.some.injEq] at hp hm
                subst hp
                subst hm
                exact hb
            | succ j =>
                exact hrest j pp mm (by simpa using hp) (by simpa using hm)
          · intro hall
            refine ⟨hall 0 p ml (by simp) (by simp), ?_⟩
            intro j pp mm hp hm
            exact hall (j+1) pp mm (by simpa using hp) (by simpa using hm)

/-- Witness for C9 at the point `(0, 5)` against limits `[0,10] × [3,5]`:
equal dimensionality 2, with both coordinates sitting exactly on interval
boundaries. -/
theorem region_iff_bounds_witness :
    ([(0:ℝ), 5] : List ℝ).length = ([((0:ℝ), (10:ℝ)), (3, 5)]).length ∧
      (IsInMapRegion [(0:ℝ), 5] [((0:ℝ), (10:ℝ)), (3, 5)] = true ↔
        ∀ (i : ℕ) (p : ℝ) (ml : ℝ × ℝ),
          ([(0:ℝ), 5] : List ℝ).get? i = some p →
          ([((0:ℝ), (10:ℝ)), (3, 5)]).get? i = some ml →
          ml.1 ≤ p ∧ p ≤ ml.2) :=
  ⟨by simp, region_iff_bounds _ _ (by simp)⟩

/-- Consecutive differences of a list: the value of `steps[1:] - steps[:-1]`
in `CalculateTimeOfFlight`. -/
def diffs : List ℝ → List ℝ
  | a :: b :: t => (b - a) :: diffs (b :: t)
  | _ => []

theorem tail_zip_sub_eq_diffs (xs : List ℝ) :
    (xs.tail.zip xs).map (fun p => p.1 - p.2) = diffs xs := by
  induction xs with
  | nil => rfl
  | cons a rest ih =>
      cases rest with
      | nil => rfl
      | cons b t =>
          simp only [List.tail_cons] at ih ⊢
          rw [List.zip_cons_cons, List.map_cons,
            show diffs (a :: b :: t) = (b - a) :: diffs (b :: t) from rfl, ← ih]

theorem meanDiff_eq_diffs (xs : List ℝ) :
    meanDiff xs = if (diffs xs).length = 0 then none
      else some ((diffs xs).sum / ((diffs xs).length : ℝ)) := by
  simp only [meanDiff, tail_zip_sub_eq_diffs]

theorem diffs_length (xs : List ℝ) : (diffs xs).length = xs.length - 1 := by
  induction xs with
  | nil => rfl
  | cons a rest ih =>
      cases rest with
      | nil => rfl
      | cons b t =>
          rw [show diffs (a :: b :: t) = (b - a) :: diffs (b :: t) from rfl,
            List.length_cons, ih]
          simp

theorem diffs_sum (t : List ℝ) (a : ℝ) :
    (diffs (a :: t)).sum = t.getLastD a - a := by
  induction t generalizing a with
  | nil => simp [diffs]
  | cons b t ih =>
      rw [show diffs (a :: b :: t) = (b - a) :: diffs (b :: t) from rfl,
        List.sum_cons, ih b, List.getLastD_cons]
      ring

theorem linspace_eq_map (a b : ℝ) (k : ℕ) (hk : 2 ≤ k) :
    linspace a b k = (List.range k).map
      (fun (i : ℕ) => a + (i : ℝ) * ((b - a) / ((k : ℝ) - 1))) := by
  rw [linspace, if_neg (by omega), if_neg (by omega)]

theorem linspace_length (a b : ℝ) (k : ℕ) : (linspace a b k).length = k := by
  rw [linspace]
  split_ifs with h1 h2
  · simp [h1]
  · simp [h2]
  · simp

theorem linspace_get? (a b : ℝ) (k : ℕ) (hk : 2 ≤ k) (i : ℕ) (hi : i < k) :
    (linspace a b k).get? i
      = some (a + (i : ℝ) * ((b - a) / ((k : ℝ) - 1))) := by
  rw [linspace_eq_map a b k hk, List.get?_map, List.get?_range hi]
  rfl

theorem getLastD_map_range (m : ℕ) (g : ℕ → ℝ) (x : ℝ) :
    ((List.range (m+1)).map g).getLastD x = g m := by
  rw [List.range_succ, List.map_append]
  simp

theorem meanDiff_linspace (a b : ℝ) (k : ℕ) (hk : 2 ≤ k) :
    meanDiff (linspace a b k) = some ((b - a) / ((k : ℝ) - 1)) := by
  obtain ⟨m, rfl⟩ : ∃ m, k = m + 2 := ⟨k - 2, by omega⟩
  have hlin : linspace a b (m+2)
      = (fun (i : ℕ) => a + (i : ℝ) * ((b - a) / (((m+2 : ℕ) : ℝ) - 1))) 0
        :: ((List.range (m+1)).map
          (fun (j : ℕ) => a + ((j+1 : ℕ) : ℝ) * ((b - a) / (((m+2 : ℕ) : ℝ) - 1)))) := by
    rw [linspace_eq_map a b (m+2) (by omega), List.range_succ_eq_map,
      List.map_cons, List.map_map]
    rfl
  rw [meanDiff_eq_diffs, hlin]
  rw [diffs_sum, getLastD_map_range]
  rw [if_neg (by rw [diffs_length]; simp)]
  rw [show (diffs ((fun (i : ℕ) => a + (i : ℝ) * ((b - a) / (((m+2 : ℕ) : ℝ) - 1))) 0
        :: ((List.range (m+1)).map
          (fun (j : ℕ) => a + ((j+1 : ℕ) : ℝ) * ((b - a) / (((m+2 : ℕ) : ℝ) - 1)))))).length
      = m + 1 by rw [diffs_length]; simp]
  have hm : ((m : ℝ) + 2) - 1 = (m : ℝ) + 1 := by ring
  have hm0 : (m : ℝ) + 1 ≠ 0 := by positivity
  push_cast
  rw [hm]
  field_simp

theorem lookupAll_eq_map {D : ℕ} (m : SpeedMap D) (ids : List (Fin D → ℤ))
    (h : ∀ v ∈ ids, validIndex m v) :
    lookupAll m ids = some (ids.map (fun v => m.data (wrapIndex m v))) := by
  induction ids with
  | nil => rfl
  | cons v rest ih =>
      have hv := h v (List.mem_cons_self v rest)
      have hrest := ih (fun w hw => h w (List.mem_cons_of_mem v hw))
      rw [show lookupAll m (v :: rest)
          = (match m.lookup v, lookupAll m rest with
             | some s, some ss => some (s :: ss)
             | _, _ => none) from rfl,
        SpeedMap.lookup, if_pos hv, hrest]
      rfl

theorem lookupAll_none_of_invalid {D : ℕ} (m : SpeedMap D)
    (ids : List (Fin D → ℤ)) (h : ∃ v ∈ ids, ¬ validIndex m v) :
    lookupAll m ids = none := by
  induction ids with
  | nil => simp at h
  | cons v rest ih =>
      rw [show lookupAll m (v :: rest)
          = (match m.lookup v, lookupAll m rest with
             | some s, some ss => some (s :: ss)
             | _, _ => none) from rfl]
      obtain ⟨w, hw, hnv⟩ := h
      rcases List.mem_cons.mp hw with hweq | hw2
      · subst hweq
        rw [SpeedMap.lookup, if_neg hnv]
      · rw [ih ⟨w, hw2, hnv⟩]
        cases m.lookup v <;> rfl

theorem lookupAll_none_iff {D : ℕ} (m : SpeedMap D) (ids : List (Fin D → ℤ)) :
    lookupAll m ids = none ↔ ∃ v ∈ ids, ¬ validIndex m v := by
  constructor
  · intro h
    by_contra hcon
    push_neg at hcon
    rw [lookupAll_eq_map m ids hcon] at h
    exact Option.noConfusion h
  · exact lookupAll_none_of_invalid m ids

theorem lookupAll_length {D : ℕ} (m : SpeedMap D) (ids : List (Fin D → ℤ))
    (speeds : List ℝ) (h : lookupAll m ids = some speeds) :
    speeds.length = ids.length := by
  induction ids generalizing speeds with
  | nil =>
      rw [show lookupAll m [] = some [] from rfl] at h
      rw [← Option.some.inj h]
      rfl
  | cons v rest ih =>
      rw [show lookupAll m (v :: rest)
          = (match m.lookup v, lookupAll m rest with
             | some s, some ss => some (s :: ss)
             | _, _ => none) from rfl] at h
      cases hv : m.lookup v with
      | none =>
          rw [hv] at h
          cases hr : lookupAll m rest <;> rw [hr] at h <;> exact Option.noConfusion h
      | some s =>
          cases hr : lookupAll m rest with
          | none =>
              rw [hv, hr] at h
              exact Option.noConfusion h
          | some ss =>
              rw [hv, hr] at h
              rw [← Option.some.inj h, List.length_cons, ih ss hr,
                List.length_cons]

theorem sumDt_some (d : ℝ) (speeds : List ℝ) (h : ∀ sp ∈ speeds, sp ≠ 0) :
    sumDt (some d) speeds = some ((speeds.map (fun sp => d / sp)).sum) := by
  induction speeds with
  | nil => simp [sumDt]
  | cons sp rest ih =>
      have hsp := h sp (List.mem_cons_self sp rest)
      rw [sumDt, ih (fun w hw => h w (List.mem_cons_of_mem sp hw))]
      simp [hsp]

theorem npRound_le (x : ℝ) : (npRound x : ℝ) ≤ x + 1/2 := by
  rw [npRound]
  split_ifs with h1 h2
  · have hf : (⌊x⌋ : ℝ) = x - 1/2 := by linarith
    rw [hf]
    linarith
  · have hf : (⌊x⌋ : ℝ) = x - 1/2 := by linarith
    push_cast
    rw [hf]
    linarith
  · have h := abs_sub_round x
    rw [abs_le] at h
    linarith [h.1]

theorem npRound_ge (x : ℝ) : x - 1/2 ≤ (npRound x : ℝ) := by
  rw [npRound]
  split_ifs with h1 h2
  · have hf : (⌊x⌋ : ℝ) = x - 1/2 := by linarith
    rw [hf]
  · have hf : (⌊x⌋ : ℝ) = x - 1/2 := by linarith
    push_cast
    rw [hf]
    linarith
  · have h := abs_sub_round x
    rw [abs_le] at h
    linarith [h.2]

theorem npRound_intCast (n : ℤ) : npRound (n : ℝ) = n := by
  rw [npRound, if_neg (by rw [Int.floor_intCast]; norm_num), round_intCast]

theorem npRound_eq_int (x : ℝ) (n : ℤ) (h : x = (n : ℝ)) : npRound x = n := by
  rw [h, npRound_intCast]

theorem tofDistance_nonneg {D : ℕ} (q o : Fin D → ℝ) : 0 ≤ tofDistance q o :=
  Real.sqrt_nonneg _

theorem tofK_cast {D : ℕ} (q o : Fin D → ℝ) (spp : ℕ) :
    (tofK q o spp : ℤ) = npRound (tofDistance q o * (spp : ℝ)) := by
  rw [tofK, Int.toNat_of_nonneg]
  by_contra hcon
  push_neg at hcon
  have h1 : npRound (tofDistance q o * (spp : ℝ)) ≤ -1 := by omega
  have h2 : (npRound (tofDistance q o * (spp : ℝ)) : ℝ) ≤ -1 := by
    exact_mod_cast h1
  have h3 := npRound_ge (tofDistance q o * (spp : ℝ))
  have h4 : (0:ℝ) ≤ tofDistance q o * (spp : ℝ) :=
    mul_nonneg (tofDistance_nonneg q o) (by positivity)
  linarith

/-- Claim C2 as amended: for a positive distance and a discretization count
`k = round(distance * steps_per_pixel) ≥ 2`, with all sample lookups in
range and all sampled speeds non-zero, `CalculateTimeOfFlight` generates
`k` uniformly spaced offsets from `0` to `distance` inclusive (the `i`-th
offset being `i * distance/(k-1)`), takes `dx` to be the mean spacing
`distance/(k-1)`, returns the ordered list of the `k` sampled speeds, and
returns `total_time` equal to the sum of `dx / speed` over ALL `k` sampled
speeds — one term per discretized point, not one per consecutive pair of
offsets (`k - 1` terms) as the claim states. -/
theorem tof_total_formula {D : ℕ} (q o : Fin D → ℝ) (m : SpeedMap D)
    (spp : ℕ) (speeds : List ℝ)
    (hL : 0 < tofDistance q o)
    (hk : 2 ≤ tofK q o spp)
    (hlk : lookupAll m (tofIndices q o spp) = some speeds)
    (hsp : ∀ sp ∈ speeds, sp ≠ 0) :
    CalculateTimeOfFlight q o m spp
      = Except.ok (some ((speeds.map
          (fun sp => (tofDistance q o / ((tofK q o spp : ℝ) - 1)) / sp)).sum),
        speeds)
    ∧ speeds.length = tofK q o spp
    ∧ meanDiff (tofSteps q o spp)
      = some (tofDistance q o / ((tofK q o spp : ℝ) - 1))
    ∧ (tofSteps q o spp).length = tofK q o spp
    ∧ (∀ i, i < tofK q o spp → (tofSteps q o spp).get? i
        = some ((i : ℝ) * (tofDistance q o / ((tofK q o spp : ℝ) - 1))))
    ∧ (tofSteps q o spp).getLast? = some (tofDistance q o) := by
  have hk1 : ((tofK q o spp : ℝ) - 1) ≠ 0 := by
    have h2 : (2:ℝ) ≤ (tofK q o spp : ℝ) := by exact_mod_cast hk
    intro hc
    linarith
  have hmean : meanDiff (tofSteps q o spp)
      = some (tofDistance q o / ((tofK q o spp : ℝ) - 1)) := by
    rw [tofSteps, meanDiff_linspace 0 (tofDistance q o) (tofK q o spp) hk,
      sub_zero]
  have hlen : (tofSteps q o spp).length = tofK q o spp := by
    rw [tofSteps, linspace_length]
  have hget : ∀ i, i < tofK q o spp → (tofSteps q o spp).get? i
      = some ((i : ℝ) * (tofDistance q o / ((tofK q o spp : ℝ) - 1))) := by
    intro i hi
    rw [tofSteps, linspace_get? 0 (tofDistance q o) (tofK q o spp) hk i hi,
      zero_add, sub_zero]
  have hlast : (tofSteps q o spp).getLast? = some (tofDistance q o) := by
    rw [List.getLast?_eq_get?, hlen, hget _ (by omega)]
    congr 1
    rw [Nat.cast_sub (by omega : 1 ≤ tofK q o spp), Nat.cast_one, mul_comm,
      div_mul_cancel₀ _ hk1]
  have hslen : speeds.length = tofK q o spp := by
    rw [lookupAll_length m _ speeds hlk, tofIndices, List.length_map, hlen]
  refine ⟨?_, hslen, hmean, hlen, hget, hlast⟩
  unfold CalculateTimeOfFlight
  rw [hlk]
  show Except.ok (sumDt (meanDiff (tofSteps q o spp)) speeds, speeds) = _
  rw [hmean, sumDt_some _ speeds hsp]

/-- Claim C5 as amended: `CalculateTimeOfFlight` raises `IndexError` iff
some rounded sample coordinate is outside numpy's ACCEPTED index range
`[-size, size)` on some axis — not outside the valid range `[0, size)`:
a negative coordinate in `[-size, -1]` is accepted silently and wraps
around to the end of that axis. -/
theorem tof_index_error_iff {D : ℕ} (q o : Fin D → ℝ) (m : SpeedMap D)
    (spp : ℕ) :
    CalculateTimeOfFlight q o m spp = Except.error SamplingError.indexError
      ↔ ∃ v ∈ tofIndices q o spp, ¬ validIndex m v := by
  rw [← lookupAll_none_iff]
  unfold CalculateTimeOfFlight
  cases h : lookupAll m (tofIndices q o spp) with
  | none => simp
  | some speeds => simp

/-- Claim C6 as amended: `CalculateTimeOfFlight` performs no check on the
sampled speed values at all: whether the call fails depends only on the
field's shape (two fields of equal shape make the call fail or succeed
together, whatever their values), so non-positive speeds can never trigger
an error. -/
theorem tof_error_shape_only {D : ℕ} (q o : Fin D → ℝ) (m n : SpeedMap D)
    (spp : ℕ) (hsh : m.shape = n.shape) :
    ((∃ r, CalculateTimeOfFlight q o m spp = Except.ok r)
      ↔ (∃ r, CalculateTimeOfFlight q o n spp = Except.ok r)) := by
  have hvalid : ∀ v, validIndex m v ↔ validIndex n v := by
    intro v
    unfold validIndex
    rw [hsh]
  have hlk : lookupAll m (tofIndices q o spp) = none
      ↔ lookupAll n (tofIndices q o spp) = none := by
    rw [lookupAll_none_iff, lookupAll_none_iff]
    constructor
    · rintro ⟨v, hv, hnv⟩
      exact ⟨v, hv, fun hc => hnv ((hvalid v).mpr hc)⟩
    · rintro ⟨v, hv, hnv⟩
      exact ⟨v, hv, fun hc => hnv ((hvalid v).mp hc)⟩
  unfold CalculateTimeOfFlight
  cases hm : lookupAll m (tofIndices q o spp) with
  | none =>
      rw [hlk.mp hm]
  | some sm =>
      cases hn : lookupAll n (tofIndices q o spp) with
      | none =>
          have hmn := hlk.mpr hn
          rw [hm] at hmn
          exact Option.noConfusion hmn
      | some sn => simp

/-- A 2D speed field of shape 3×3 with constant speed 1. -/
def mapOnes2 : SpeedMap 2 :=
  { shape := ![3, 3], data := fun _ => 1 }

/-- A 2D speed field of shape 3×3 whose entries at column 0 are 1 and
whose other entries are the negative speed -2. -/
def negMap2 : SpeedMap 2 :=
  { shape := ![3, 3], data := fun v => if v 0 ≤ 0 then 1 else -2 }

/-- A 2D speed field of shape 4×4 graded along axis 0: entry `(r, c)`
holds `10*r + 10`, so rows 0..3 hold speeds 10, 20, 30, 40. -/
def wrapMap2 : SpeedMap 2 :=
  { shape := ![4, 4], data := fun v => 10 * (v 0 : ℝ) + 10 }

theorem npRound_zero : npRound 0 = 0 := by
  rw [show (0:ℝ) = ((0:ℤ) : ℝ) by norm_num, npRound_intCast]

theorem tofDistance_sqrt {D : ℕ} (q o : Fin D → ℝ) :
    tofDistance q o = Real.sqrt (∑ i, (q i - o i) ^ 2) := rfl

theorem axis2_distance (a b : ℝ) (hab : a ≤ b) :
    tofDistance ![b, 0] ![a, 0] = b - a := by
  rw [tofDistance_sqrt, Fin.sum_univ_two]
  rw [show ((![b, 0] : Fin 2 → ℝ) 0 - (![a, 0] : Fin 2 → ℝ) 0) ^ 2
      + ((![b, 0] : Fin 2 → ℝ) 1 - (![a, 0] : Fin 2 → ℝ) 1) ^ 2
      = (b - a) ^ 2 by simp]
  exact Real.sqrt_sq (by linarith)

theorem axis2_index_fun (a b t : ℝ) (hab : a < b) :
    (fun i => npRound ((![a, 0] : Fin 2 → ℝ) i
        + t * (((![b, 0] : Fin 2 → ℝ) i - (![a, 0] : Fin 2 → ℝ) i)
          / tofDistance ![b, 0] ![a, 0])))
      = ![npRound (a + t), 0] := by
  have hd : tofDistance ![b, 0] ![a, 0] = b - a :=
    axis2_distance a b (le_of_lt hab)
  have hba : b - a ≠ 0 := sub_ne_zero_of_ne (ne_of_gt hab)
  funext i
  fin_cases i
  · simp [hd, div_self hba]
  · simp [hd, npRound_zero]

theorem axis2_indices (a b : ℝ) (hab : a < b) :
    tofIndices ![b, 0] ![a, 0] 1
      = (tofSteps ![b, 0] ![a, 0] 1).map (fun t => ![npRound (a + t), 0]) := by
  unfold tofIndices
  congr 1
  funext t
  exact axis2_index_fun a b t hab

theorem linspace_0_2_2 : linspace 0 2 2 = [0, 2] := by
  rw [linspace, if_neg (by norm_num), if_neg (by norm_num),
    show List.range 2 = [0, 1] from rfl]
  norm_num

theorem meanDiff_02 : meanDiff [(0:ℝ), 2] = some 2 := by
  rw [meanDiff_eq_diffs, show diffs [(0:ℝ), 2] = [2 - 0] from rfl]
  norm_num

theorem meanDiff_single (x : ℝ) : meanDiff [x] = none := by
  rw [meanDiff_eq_diffs, show diffs [x] = [] from rfl]
  norm_num

theorem tofDistance_A : tofDistance ![(3:ℝ), 0] ![(1:ℝ), 0] = 2 := by
  rw [axis2_distance 1 3 (by norm_num)]
  norm_num

theorem tofK_A : tofK ![(3:ℝ), 0] ![(1:ℝ), 0] 1 = 2 := by
  have h : (tofK ![(3:ℝ), 0] ![(1:ℝ), 0] 1 : ℤ) = 2 := by
    rw [tofK_cast, tofDistance_A]
    exact npRound_eq_int _ 2 (by norm_num)
  exact_mod_cast h

theorem tofSteps_A : tofSteps ![(3:ℝ), 0] ![(1:ℝ), 0] 1 = [0, 2] := by
  rw [tofSteps, tofDistance_A, tofK_A, linspace_0_2_2]

theorem tofIndices_A : tofIndices ![(3:ℝ), 0] ![(1:ℝ), 0] 1
    = [![1, 0], ![3, 0]] := by
  rw [axis2_indices 1 3 (by norm_num), tofSteps_A, List.map_cons,
    List.map_cons, List.map_nil,
    show npRound ((1:ℝ) + 0) = 1 from npRound_eq_int _ 1 (by norm_num),
    show npRound ((1:ℝ) + 2) = 3 from npRound_eq_int _ 3 (by norm_num)]

theorem lookupAll_A :
    lookupAll constMap2 [(![1, 0] : Fin 2 → ℤ), ![3, 0]] = some [2, 2] := by
  rw [lookupAll_eq_map constMap2 _ ?_]
  · simp [constMap2]
  · intro v hv
    fin_cases hv <;> intro i <;> fin_cases i <;> simp [constMap2]

theorem sumDt_A : sumDt (some 2) [(2:ℝ), 2] = some 2 := by
  simp only [sumDt, Option.some_bind]
  norm_num

theorem tof_A : CalculateTimeOfFlight ![(3:ℝ), 0] ![(1:ℝ), 0] constMap2 1
    = Except.ok (some 2, [2, 2]) := by
  unfold CalculateTimeOfFlight
  rw [tofIndices_A, lookupAll_A]
  show Except.ok
    (sumDt (meanDiff (tofSteps ![(3:ℝ), 0] ![(1:ℝ), 0] 1)) [2, 2], [2, 2]) = _
  rw [tofSteps_A, meanDiff_02, sumDt_A]

/-- Total time that claim C2's words prescribe: one term `dx / speed` per
consecutive pair of offsets — `k - 1` terms (the speed here is taken at
the first sample of each pair; for a constant field the choice within the
pair is immaterial). -/
def claimC2Total (dx : ℝ) (speeds : List ℝ) : ℝ :=
  ((speeds.zip speeds.tail).map (fun pr => dx / pr.1)).sum

/-- Claim C2, counterexample to the claim as stated: on a constant field of
speed 2 from `(1,0)` to `(3,0)` with one step per pixel, the code generates
`k = 2` offsets `[0, 2]` and `dx = 2`, but accumulates `dx/speed` once per
SAMPLE (`k = 2` terms), returning `total_time = 2`, whereas one term per
consecutive pair of offsets (`k - 1 = 1` term) would give `1`. -/
theorem tof_sum_counts_all_samples_cex :
    CalculateTimeOfFlight ![(3:ℝ), 0] ![(1:ℝ), 0] constMap2 1
        = Except.ok (some 2, [2, 2])
      ∧ claimC2Total 2 [2, 2] = 1 ∧ (2:ℝ) ≠ 1 := by
  refine ⟨tof_A, ?_, by norm_num⟩
  rw [claimC2Total]
  norm_num

/-- Witness for the amended C2 on the constant field of speed 2 from
`(1,0)` to `(3,0)` with `steps_per_pixel = 1`. -/
theorem tof_total_formula_witness :
    0 < tofDistance ![(3:ℝ), 0] ![(1:ℝ), 0]
    ∧ 2 ≤ tofK ![(3:ℝ), 0] ![(1:ℝ), 0] 1
    ∧ lookupAll constMap2 (tofIndices ![(3:ℝ), 0] ![(1:ℝ), 0] 1)
        = some [2, 2]
    ∧ (∀ sp ∈ ([2, 2] : List ℝ), sp ≠ 0)
    ∧ (CalculateTimeOfFlight ![(3:ℝ), 0] ![(1:ℝ), 0] constMap2 1
        = Except.ok (some ((([2, 2] : List ℝ).map
            (fun sp => (tofDistance ![(3:ℝ), 0] ![(1:ℝ), 0]
              / ((tofK ![(3:ℝ), 0] ![(1:ℝ), 0] 1 : ℝ) - 1)) / sp)).sum),
          [2, 2])
      ∧ ([2, 2] : List ℝ).length = tofK ![(3:ℝ), 0] ![(1:ℝ), 0] 1
      ∧ meanDiff (tofSteps ![(3:ℝ), 0] ![(1:ℝ), 0] 1)
          = some (tofDistance ![(3:ℝ), 0] ![(1:ℝ), 0]
            / ((tofK ![(3:ℝ), 0] ![(1:ℝ), 0] 1 : ℝ) - 1))
      ∧ (tofSteps ![(3:ℝ), 0] ![(1:ℝ), 0] 1).length
          = tofK ![(3:ℝ), 0] ![(1:ℝ), 0] 1
      ∧ (∀ i, i < tofK ![(3:ℝ), 0] ![(1:ℝ), 0] 1 →
          (tofSteps ![(3:ℝ), 0] ![(1:ℝ), 0] 1).get? i
            = some ((i : ℝ) * (tofDistance ![(3:ℝ), 0] ![(1:ℝ), 0]
              / ((tofK ![(3:ℝ), 0] ![(1:ℝ), 0] 1 : ℝ) - 1))))
      ∧ (tofSteps ![(3:ℝ), 0] ![(1:ℝ), 0] 1).getLast?
          = some (tofDistance ![(3:ℝ), 0] ![(1:ℝ), 0])) := by
  have hL : 0 < tofDistance ![(3:ℝ), 0] ![(1:ℝ), 0] := by
    rw [tofDistance_A]
    norm_num
  have hk : 2 ≤ tofK ![(3:ℝ), 0] ![(1:ℝ), 0] 1 := by
    rw [tofK_A]
  have hlk : lookupAll constMap2 (tofIndices ![(3:ℝ), 0] ![(1:ℝ), 0] 1)
      = some [2, 2] := by
    rw [tofIndices_A]
    exact lookupAll_A
  have hsp : ∀ sp ∈ ([2, 2] : List ℝ), sp ≠ 0 := by
    intro sp hsp
    fin_cases hsp <;> norm_num
  exact ⟨hL, hk, hlk, hsp, tof_total_formula _ _ _ _ _ hL hk hlk hsp⟩

theorem tofDistance_D : tofDistance ![(1:ℝ), 0] ![(-1:ℝ), 0] = 2 := by
  rw [axis2_distance (-1) 1 (by norm_num)]
  norm_num

theorem tofK_D : tofK ![(1:ℝ), 0] ![(-1:ℝ), 0] 1 = 2 := by
  have h : (tofK ![(1:ℝ), 0] ![(-1:ℝ), 0] 1 : ℤ) = 2 := by
    rw [tofK_cast, tofDistance_D]
    exact npRound_eq_int _ 2 (by norm_num)
  exact_mod_cast h

theorem tofSteps_D : tofSteps ![(1:ℝ), 0] ![(-1:ℝ), 0] 1 = [0, 2] := by
  rw [tofSteps, tofDistance_D, tofK_D, linspace_0_2_2]

theorem tofIndices_D : tofIndices ![(1:ℝ), 0] ![(-1:ℝ), 0] 1
    = [![-1, 0], ![1, 0]] := by
  rw [axis2_indices (-1) 1 (by norm_num), tofSteps_D, List.map_cons,
    List.map_cons, List.map_nil,
    show npRound ((-1:ℝ) + 0) = -1 from npRound_eq_int _ (-1) (by norm_num),
    show npRound ((-1:ℝ) + 2) = 1 from npRound_eq_int _ 1 (by norm_num)]

theorem wrapMap2_at_neg1 : wrapMap2.data (wrapIndex wrapMap2 ![-1, 0]) = 40 := by
  have hw : wrapIndex wrapMap2 ![-1, 0] 0 = 3 := by
    norm_num [wrapIndex, wrapMap2]
  show 10 * ((wrapIndex wrapMap2 ![-1, 0] 0 : ℤ) : ℝ) + 10 = 40
  rw [hw]
  norm_num

theorem wrapMap2_at_pos1 : wrapMap2.data (wrapIndex wrapMap2 ![1, 0]) = 20 := by
  have hw : wrapIndex wrapMap2 ![1, 0] 0 = 1 := by
    norm_num [wrapIndex, wrapMap2]
  show 10 * ((wrapIndex wrapMap2 ![1, 0] 0 : ℤ) : ℝ) + 10 = 20
  rw [hw]
  norm_num

theorem lookupAll_D :
    lookupAll wrapMap2 [(![-1, 0] : Fin 2 → ℤ), ![1, 0]] = some [40, 20] := by
  rw [lookupAll_eq_map wrapMap2 _ ?_]
  · rw [List.map_cons, List.map_cons, List.map_nil, wrapMap2_at_neg1,
      wrapMap2_at_pos1]
  · intro v hv
    fin_cases hv <;> intro i <;> fin_cases i <;> simp [wrapMap2]

theorem sumDt_D : sumDt (some 2) [(40:ℝ), 20] = some (3/20) := by
  simp only [sumDt, Option.some_bind]
  norm_num

theorem tof_D : CalculateTimeOfFlight ![(1:ℝ), 0] ![(-1:ℝ), 0] wrapMap2 1
    = Except.ok (some (3/20), [40, 20]) := by
  unfold CalculateTimeOfFlight
  rw [tofIndices_D, lookupAll_D]
  show Except.ok
    (sumDt (meanDiff (tofSteps ![(1:ℝ), 0] ![(-1:ℝ), 0] 1)) [40, 20],
      [40, 20]) = _
  rw [tofSteps_D, meanDiff_02, sumDt_D]

/-- Claim C5, counterexample to the claim as stated: from `(-1,0)` to
`(1,0)` over the 4×4 field, the first rounded sample coordinate is
`(-1, 0)` — outside the valid index range `[0, 4)` on axis 0 — yet the
call does not fail: numpy accepts the negative index, wraps it to row
`-1 + 4 = 3` (speed 40), and silently returns a result computed from it. -/
theorem tof_negative_index_wraps_cex :
    CalculateTimeOfFlight ![(1:ℝ), 0] ![(-1:ℝ), 0] wrapMap2 1
        = Except.ok (some (3/20), [40, 20])
      ∧ ∃ v ∈ tofIndices ![(1:ℝ), 0] ![(-1:ℝ), 0] 1, v 0 < 0 := by
  refine ⟨tof_D, ⟨![-1, 0], ?_, by norm_num⟩⟩
  rw [tofIndices_D]
  exact List.mem_cons_self _ _

theorem tofDistance_E : tofDistance ![(2:ℝ), 0] ![(0:ℝ), 0] = 2 := by
  rw [axis2_distance 0 2 (by norm_num)]
  norm_num

theorem tofK_E : tofK ![(2:ℝ), 0] ![(0:ℝ), 0] 1 = 2 := by
  have h : (tofK ![(2:ℝ), 0] ![(0:ℝ), 0] 1 : ℤ) = 2 := by
    rw [tofK_cast, tofDistance_E]
    exact npRound_eq_int _ 2 (by norm_num)
  exact_mod_cast h

theorem tofSteps_E : tofSteps ![(2:ℝ), 0] ![(0:ℝ), 0] 1 = [0, 2] := by
  rw [tofSteps, tofDistance_E, tofK_E, linspace_0_2_2]

theorem tofIndices_E : tofIndices ![(2:ℝ), 0] ![(0:ℝ), 0] 1
    = [![0, 0], ![2, 0]] := by
  rw [axis2_indices 0 2 (by norm_num), tofSteps_E, List.map_cons,
    List.map_cons, List.map_nil,
    show npRound ((0:ℝ) + 0) = 0 from npRound_eq_int _ 0 (by norm_num),
    show npRound ((0:ℝ) + 2) = 2 from npRound_eq_int _ 2 (by norm_num)]

theorem lookupAll_E :
    lookupAll negMap2 [(![0, 0] : Fin 2 → ℤ), ![2, 0]] = some [1, -2] := by
  rw [lookupAll_eq_map negMap2 _ ?_]
  · simp only [List.map_cons, List.map_nil]
    rw [show negMap2.data (wrapIndex negMap2 ![0, 0]) = 1 by
        simp [negMap2, wrapIndex],
      show negMap2.data (wrapIndex negMap2 ![2, 0]) = -2 by
        simp [negMap2, wrapIndex]]
  · intro v hv
    fin_cases hv <;> intro i <;> fin_cases i <;> simp [negMap2]

theorem sumDt_E : sumDt (some 2) [(1:ℝ), -2] = some 1 := by
  simp only [sumDt, Option.some_bind]
  norm_num

theorem tof_E : CalculateTimeOfFlight ![(2:ℝ), 0] ![(0:ℝ), 0] negMap2 1
    = Except.ok (some 1, [1, -2]) := by
  unfold CalculateTimeOfFlight
  rw [tofIndices_E, lookupAll_E]
  show Except.ok
    (sumDt (meanDiff (tofSteps ![(2:ℝ), 0] ![(0:ℝ), 0] 1)) [1, -2],
      [1, -2]) = _
  rw [tofSteps_E, meanDiff_02, sumDt_E]

/-- Claim C6, counterexample to the claim as stated: the sampled speed at
`(2,0)` is `-2 ≤ 0`, yet `CalculateTimeOfFlight` raises nothing: the sign
inversion passes silently into the returned `total_time`
(`2/1 + 2/(-2) = 1`). -/
theorem tof_negative_speed_silent_cex :
    CalculateTimeOfFlight ![(2:ℝ), 0] ![(0:ℝ), 0] negMap2 1
        = Except.ok (some 1, [1, -2])
      ∧ ((-2:ℝ) ≤ 0) :=
  ⟨tof_E, by norm_num⟩

/-- Witness for the amended C6: the constant field of 1s and the field with
a negative entry share the shape 3×3, so the same query either fails on
both or succeeds on both — speed values are never checked. -/
theorem tof_error_shape_only_witness :
    mapOnes2.shape = negMap2.shape ∧
      ((∃ r, CalculateTimeOfFlight ![(2:ℝ), 0] ![(0:ℝ), 0] mapOnes2 1
          = Except.ok r)
        ↔ (∃ r, CalculateTimeOfFlight ![(2:ℝ), 0] ![(0:ℝ), 0] negMap2 1
          = Except.ok r)) :=
  ⟨rfl, tof_error_shape_only ![(2:ℝ), 0] ![(0:ℝ), 0] mapOnes2 negMap2 1 rfl⟩

theorem tofDistance_C : tofDistance ![(1:ℝ), 0] ![(0:ℝ), 0] = 1 := by
  rw [axis2_distance 0 1 (by norm_num)]
  norm_num

theorem tofK_C : tofK ![(1:ℝ), 0] ![(0:ℝ), 0] 1 = 1 := by
  have h : (tofK ![(1:ℝ), 0] ![(0:ℝ), 0] 1 : ℤ) = 1 := by
    rw [tofK_cast, tofDistance_C]
    exact npRound_eq_int _ 1 (by norm_num)
  exact_mod_cast h

theorem tofSteps_C : tofSteps ![(1:ℝ), 0] ![(0:ℝ), 0] 1 = [0] := by
  rw [tofSteps, tofDistance_C, tofK_C, linspace, if_neg (by norm_num),
    if_pos rfl]

theorem tofIndices_C : tofIndices ![(1:ℝ), 0] ![(0:ℝ), 0] 1 = [![0, 0]] := by
  rw [axis2_indices 0 1 (by norm_num), tofSteps_C, List.map_cons, List.map_nil,
    show npRound ((0:ℝ) + 0) = 0 from npRound_eq_int _ 0 (by norm_num)]

theorem lookupAll_C :
    lookupAll mapOnes2 [(![0, 0] : Fin 2 → ℤ)] = some [1] := by
  rw [lookupAll_eq_map mapOnes2 _ ?_]
  · simp [mapOnes2]
  · intro v hv
    fin_cases hv <;> intro i <;> fin_cases i <;> simp [mapOnes2]

/-- Claim C10, counterexample to the claim as stated: on the constant field
of speed `c = 1`, endpoints `(0,0)` and `(1,0)` are a distance `L = 1 > 0`
apart, and with `steps_per_pixel = 1` the discretization count is
`k = round(1) = 1`, so the offset slice `steps[1:] - steps[:-1]` is empty,
its mean `dx` is NaN, and the returned `total_time` is NaN (`none`) — not
a real number within any bound of `L / c`. -/
theorem tof_const_field_nan_cex :
    CalculateTimeOfFlight ![(1:ℝ), 0] ![(0:ℝ), 0] mapOnes2 1
      = Except.ok (none, [1]) := by
  unfold CalculateTimeOfFlight
  rw [tofIndices_C, lookupAll_C]
  show Except.ok
    (sumDt (meanDiff (tofSteps ![(1:ℝ), 0] ![(0:ℝ), 0] 1)) [1], [1]) = _
  rw [tofSteps_C, meanDiff_single]
  simp [sumDt]

theorem meanDiff_nil : meanDiff ([] : List ℝ) = none := by
  rw [meanDiff_eq_diffs, show diffs ([] : List ℝ) = [] from rfl]
  simp

theorem map_const_of_eq {α : Type} (l : List α) (f : α → ℝ) (c : ℝ)
    (h : ∀ x ∈ l, f x = c) : l.map f = List.replicate l.length c := by
  induction l with
  | nil => rfl
  | cons a t ih =>
      rw [List.map_cons, h a (List.mem_cons_self a t),
        ih (fun x hx => h x (List.mem_cons_of_mem a hx)), List.length_cons,
        List.replicate_succ]

theorem sumDt_replicate (d c : ℝ) (hc : c ≠ 0) (k : ℕ) :
    sumDt (some d) (List.replicate k c) = some ((k : ℝ) * (d / c)) := by
  induction k with
  | zero => simp [sumDt]
  | succ n ih =>
      rw [List.replicate_succ, sumDt, ih]
      simp only [Option.some_bind, if_neg hc]
      rw [Option.some.injEq]
      push_cast
      ring

/-- Claim C10 as amended: for a constant speed field of value `c > 0`,
endpoints a positive distance `L` apart, all samples in range, and a
discretization count `k = round(L * steps_per_pixel)` different from 1,
`CalculateTimeOfFlight` returns a real `total_time` with
`|total_time - L/c| ≤ (5/2) / (c * steps_per_pixel)` — an error bounded by
a constant times `1/steps_per_pixel`.  The case `k = 1` must be excluded:
there the mean spacing `dx` is the mean of an empty slice and the returned
total time is NaN, not within any bound. -/
theorem tof_const_field_bound {D : ℕ} (q o : Fin D → ℝ) (m : SpeedMap D)
    (spp : ℕ) (c : ℝ)
    (hc : 0 < c) (hdata : ∀ v, m.data v = c)
    (hL : 0 < tofDistance q o)
    (hspp : 0 < spp)
    (hk1 : tofK q o spp ≠ 1)
    (hvalid : ∀ v ∈ tofIndices q o spp, validIndex m v) :
    ∃ T, CalculateTimeOfFlight q o m spp
        = Except.ok (some T, List.replicate (tofK q o spp) c)
      ∧ |T - tofDistance q o / c| ≤ (5/2) / (c * (spp : ℝ)) := by
  have hc0 : c ≠ 0 := ne_of_gt hc
  have hsppr : (0:ℝ) < (spp : ℝ) := by exact_mod_cast hspp
  have hidslen : (tofIndices q o spp).length = tofK q o spp := by
    rw [tofIndices, List.length_map, tofSteps, linspace_length]
  have hlook : lookupAll m (tofIndices q o spp)
      = some (List.replicate (tofK q o spp) c) := by
    rw [lookupAll_eq_map m _ hvalid,
      map_const_of_eq _ _ c (fun x _ => hdata _), hidslen]
  have hge := npRound_ge (tofDistance q o * (spp : ℝ))
  have hle := npRound_le (tofDistance q o * (spp : ℝ))
  rw [← tofK_cast q o spp] at hge hle
  push_cast at hge hle
  have hub : tofDistance q o * (spp : ℝ) ≤ (tofK q o spp : ℝ) + 1/2 := by
    linarith
  rcases Nat.eq_zero_or_pos (tofK q o spp) with hk0 | hkpos
  · refine ⟨0, ?_, ?_⟩
    · unfold CalculateTimeOfFlight
      rw [hlook]
      show Except.ok (sumDt (meanDiff (tofSteps q o spp))
        (List.replicate (tofK q o spp) c),
        List.replicate (tofK q o spp) c) = _
      rw [tofSteps, hk0, show linspace 0 (tofDistance q o) 0 = [] from
        by rw [linspace, if_pos rfl], meanDiff_nil]
      rfl
    · have hx : tofDistance q o * (spp : ℝ) ≤ 1/2 := by
        rw [hk0] at hub
        push_cast at hub
        linarith
      rw [zero_sub, abs_neg, abs_of_pos (div_pos hL hc)]
      rw [div_le_div_iff hc (mul_pos hc hsppr)]
      nlinarith [mul_le_mul_of_nonneg_left hx hc.le]
  · have hk2 : 2 ≤ tofK q o spp := by omega
    have hk2r : (2:ℝ) ≤ (tofK q o spp : ℝ) := by exact_mod_cast hk2
    have hkm1pos : (0:ℝ) < (tofK q o spp : ℝ) - 1 := by linarith
    have hkm1 : ((tofK q o spp : ℝ) - 1) ≠ 0 := ne_of_gt hkm1pos
    refine ⟨(tofK q o spp : ℝ)
      * ((tofDistance q o / ((tofK q o spp : ℝ) - 1)) / c), ?_, ?_⟩
    · unfold CalculateTimeOfFlight
      rw [hlook]
      show Except.ok (sumDt (meanDiff (tofSteps q o spp))
        (List.replicate (tofK q o spp) c),
        List.replicate (tofK q o spp) c) = _
      rw [tofSteps, meanDiff_linspace 0 _ _ hk2, sub_zero,
        sumDt_replicate _ c hc0 _]
    · have herr : (tofK q o spp : ℝ)
          * ((tofDistance q o / ((tofK q o spp : ℝ) - 1)) / c)
          - tofDistance q o / c
          = tofDistance q o / (c * ((tofK q o spp : ℝ) - 1)) := by
        field_simp
        ring
      rw [herr, abs_of_pos (div_pos hL (mul_pos hc hkm1pos))]
      rw [div_le_div_iff (mul_pos hc hkm1pos) (mul_pos hc hsppr)]
      nlinarith [mul_le_mul_of_nonneg_left hub hc.le,
        mul_nonneg hc.le (by linarith : (0:ℝ) ≤ 3/2 * (tofK q o spp : ℝ) - 3)]

/-- Witness for the amended C10 on the 5×5 constant field of speed `c = 2`
from `(1,0)` to `(3,0)` with `steps_per_pixel = 1`: here `L = 2`, `k = 2`,
the returned total time is `2`, and `|2 - L/c| = 1 ≤ (5/2)/(c*spp) = 5/4`. -/
theorem tof_const_field_bound_witness :
    (0:ℝ) < 2
    ∧ (∀ v, constMap2.data v = 2)
    ∧ 0 < tofDistance ![(3:ℝ), 0] ![(1:ℝ), 0]
    ∧ 0 < 1
    ∧ tofK ![(3:ℝ), 0] ![(1:ℝ), 0] 1 ≠ 1
    ∧ (∀ v ∈ tofIndices ![(3:ℝ), 0] ![(1:ℝ), 0] 1, validIndex constMap2 v)
    ∧ ∃ T, CalculateTimeOfFlight ![(3:ℝ), 0] ![(1:ℝ), 0] constMap2 1
          = Except.ok (some T,
            List.replicate (tofK ![(3:ℝ), 0] ![(1:ℝ), 0] 1) 2)
        ∧ |T - tofDistance ![(3:ℝ), 0] ![(1:ℝ), 0] / 2|
          ≤ (5/2) / (2 * ((1:ℕ) : ℝ)) := by
  have hL : 0 < tofDistance ![(3:ℝ), 0] ![(1:ℝ), 0] := by
    rw [tofDistance_A]
    norm_num
  have hk1 : tofK ![(3:ℝ), 0] ![(1:ℝ), 0] 1 ≠ 1 := by
    rw [tofK_A]
    norm_num
  have hvalid : ∀ v ∈ tofIndices ![(3:ℝ), 0] ![(1:ℝ), 0] 1,
      validIndex constMap2 v := by
    rw [tofIndices_A]
    intro v hv
    fin_cases hv <;> intro i <;> fin_cases i <;> simp [constMap2]
  exact ⟨by norm_num, fun _ => rfl, hL, by norm_num, hk1, hvalid,
    tof_const_field_bound ![(3:ℝ), 0] ![(1:ℝ), 0] constMap2 1 2
      (by norm_num) (fun _ => rfl) hL (by norm_num) hk1 hvalid⟩
